import Mathlib

/-!
Verification of the hashicorp-vault-migrations repository core.

The development shallowly embeds the migration execution engine and the
state-diff generator from pkg/migrations (migrations.go, generator.go).
The source contains two overlapping draft variants of the runner logic in
migrations.go; they are embedded as namespaces V1 (first variant, with the
per-task retry loop) and V2 (second variant, with the dry-run guard on the
cursor write).  External collaborators (the Vault wire protocol, the file
system, YAML parsing mechanics) are modelled as oracles and parse outcomes,
as the spec treats them as outside the core.
-/

namespace VaultMigrations

/--
Dynamic Go value (interface value) as stored in the
map-of-string-to-interface payloads.  The constructor vnil models the nil
interface value, which Go code checks for explicitly.
-/
inductive GoVal where
  | vstr (s : String)
  | vint (n : Int)
  | vbool (b : Bool)
  | vnil
  | vmap (kvs : List (String × GoVal))
  | vlist (xs : List GoVal)

/-- Boolean test for the nil interface value, modelling a Go comparison of
an interface value against nil. -/
def GoVal.isNil : GoVal → Bool
  | .vnil => true
  | _ => false

/-- State tree: a Go map from path to a dynamic value (association list;
Go maps have unique keys, stated as a NoDup hypothesis where needed). -/
abbrev Tree := List (String × GoVal)

/-- Map lookup, modelling a Go map index expression with the comma-ok form:
none models (zero value, false). -/
def lookupTree (t : Tree) (p : String) : Option GoVal :=
  (t.find? (fun kv => kv.1 == p)).map (·.2)

/-- Insertion of one key-sorted entry, used to model the sorted key order
in which the fmt package prints Go maps. -/
def insertByKey (a : String × String) : List (String × String) → List (String × String)
  | [] => [a]
  | b :: bs => if a.1 < b.1 then a :: b :: bs else b :: insertByKey a bs

/-- Key-sorting of formatted map entries (fmt prints map keys sorted). -/
def sortByKey (l : List (String × String)) : List (String × String) :=
  l.foldl (fun acc x => insertByKey x acc) []

/-- Space-joined concatenation, as fmt uses inside map and slice prints. -/
def joinSpace : List String → String
  | [] => ""
  | [x] => x
  | x :: xs => x ++ " " ++ joinSpace xs

mutual

/-- Model of fmt.Sprintf with the v verb on a dynamic value, used by
configValuesEqual in generator.go: strings print bare, ints in decimal,
nil as the angle-bracketed nil marker, maps with sorted keys. -/
def goFmt : GoVal → String
  | .vstr s => s
  | .vint n => toString n
  | .vbool b => toString b
  | .vnil => "<nil>"
  | .vmap kvs =>
      "map[" ++ joinSpace ((sortByKey (goFmtPairs kvs)).map (fun kv => kv.1 ++ ":" ++ kv.2)) ++ "]"
  | .vlist xs => "[" ++ joinSpace (goFmtList xs) ++ "]"

/-- Formats each map entry value (structural helper for goFmt). -/
def goFmtPairs : List (String × GoVal) → List (String × String)
  | [] => []
  | kv :: rest => (kv.1, goFmt kv.2) :: goFmtPairs rest

/-- Formats each slice element (structural helper for goFmt). -/
def goFmtList : List GoVal → List String
  | [] => []
  | x :: xs => goFmt x :: goFmtList xs

end

/-- Embeds configValuesEqual (generator.go:233-246): nil handling first,
then comparison of the canonical string serializations. -/
def configValuesEqual (a b : GoVal) : Bool :=
  match a, b with
  | .vnil, .vnil => true
  | .vnil, _ => false
  | _, .vnil => false
  | a, b => goFmt a == goFmt b

/-- Embeds the Task struct (migrations.go:21-25): a single Vault operation.
An absent data field (nil map) is modelled as the empty list. -/
structure Task where
  path : String
  method : String
  data : List (String × GoVal)

/-- Embeds the Migration struct (migrations.go:28-31). -/
structure Migration where
  version : Int
  tasks : List Task

/-- Embeds the HCLDiff struct (generator.go:14-18).  The old and new value
fields are interface values defaulting to nil, modelled by vnil. -/
structure HCLDiff where
  path : String
  oldValue : GoVal := .vnil
  newValue : GoVal := .vnil

/-- Embeds compareConfigs (generator.go:193-230).  Go map iteration order
is unspecified; the model iterates association lists in entry order, which
the per-path claims do not depend on. -/
def compareConfigs (current desired : Tree) : List HCLDiff :=
  (desired.foldl (fun diffs pd =>
    match lookupTree current pd.1 with
    | none => diffs ++ [{ path := pd.1, newValue := pd.2 }]
    | some cv =>
        if ¬ configValuesEqual cv pd.2 then
          diffs ++ [{ path := pd.1, oldValue := cv, newValue := pd.2 }]
        else diffs) [])
  ++ (current.foldl (fun diffs pc =>
    match lookupTree desired pc.1 with
    | none => diffs ++ [{ path := pc.1, oldValue := pc.2 }]
    | some _ => diffs) [])

/-- Embeds toMapStringInterface (generator.go:281-286). -/
def toMapStringInterface (v : GoVal) : List (String × GoVal) :=
  match v with
  | .vmap kvs => kvs
  | v => [("value", v)]

/-- Embeds generateTasksFromDiffs (generator.go:249-278). -/
def generateTasksFromDiffs (diffs : List HCLDiff) : List Task :=
  diffs.foldl (fun tasks diff =>
    if diff.oldValue.isNil && diff.newValue.isNil then tasks
    else
      let method :=
        if !diff.oldValue.isNil && diff.newValue.isNil then "DELETE"
        else if !diff.oldValue.isNil then "PUT"
        else "POST"
      let data :=
        if !diff.newValue.isNil then toMapStringInterface diff.newValue else []
      tasks ++ [{ path := diff.path, method := method, data := data }]) []

/--
Migrations directory as the generator sees it.  The field migs lists the
parse-as-Migration outcomes of the migration yaml files in glob order
(none for an unreadable or unparseable file, which getLatestVersion skips).
The field snapshot holds the last-known-state file content when present.
Note that the star-dot-yaml glob used by the source also matches the
state snapshot file, and unmarshalling it as a Migration succeeds with the
zero value (version 0, no tasks) because unknown yaml keys are ignored;
globParses makes that extra entry explicit.
-/
structure GenDir where
  migs : List (Option Migration)
  snapshot : Option Tree

/-- Parse outcomes of every file matched by the glob in the directory,
including the snapshot file when it exists (see GenDir). -/
def globParses (dir : GenDir) : List (Option Migration) :=
  dir.migs ++ (match dir.snapshot with
    | some _ => [some { version := 0, tasks := [] }]
    | none => [])

/-- Embeds getLatestVersion (generator.go:161-190): zero for an empty
directory, otherwise the greatest version among the files that parse
(bad files are skipped here, unlike in loadMigrations).  The source sorts
the collected versions and takes the last; the model folds with max. -/
def getLatestVersion (dir : GenDir) : Int :=
  let files := globParses dir
  if files.isEmpty then 0
  else
    match (files.filterMap id).map (·.version) with
    | [] => 0
    | v :: vs => vs.foldl max v

/-- Result of one generator run: the message returned, the directory after
the run, and the migration file written, if any. -/
structure GenOut where
  msg : String
  dir : GenDir
  written : Option Migration

/-- Embeds GenerateMigration (generator.go:67-86): marshals the migration
and writes it into the directory as a new file. -/
def GenerateMigration (version : Int) (tasks : List Task) (dir : GenDir) : GenDir :=
  { dir with migs := dir.migs ++ [some { version := version, tasks := tasks }] }

/-- Embeds saveLastKnownState (generator.go:48-64). -/
def saveLastKnownState (dir : GenDir) (state : Tree) : GenDir :=
  { dir with snapshot := some state }

/-- Embeds GenerateIntelligentMigration (generator.go:89-158).  File read
and write failures abort the source with an error and are not modelled:
the claims concern the successful control flow.  Go map iteration order is
modelled as association-list entry order. -/
def GenerateIntelligentMigration (currentConfig : Option Tree) (desiredConfig : Tree)
    (dir : GenDir) : GenOut :=
  let version := getLatestVersion dir
  let current := match currentConfig with
    | none => dir.snapshot
    | some c => some c
  match current with
  | none =>
    if desiredConfig.isEmpty then
      { msg := "No migrations required - empty desired state", dir := dir, written := none }
    else
      let tasks := desiredConfig.map (fun pv =>
        { path := pv.1, method := "POST", data := toMapStringInterface pv.2 })
      let newMig : Migration := { version := version + 1, tasks := tasks }
      let dir1 := saveLastKnownState (GenerateMigration (version + 1) tasks dir) desiredConfig
      { msg := "Generated initial migration version " ++ toString (version + 1) ++
               " with " ++ toString tasks.length ++ " tasks",
        dir := dir1, written := some newMig }
  | some c =>
    let diffs := compareConfigs c desiredConfig
    if diffs.isEmpty then
      { msg := "No migrations required - configurations are identical", dir := dir, written := none }
    else
      let tasks := generateTasksFromDiffs diffs
      if tasks.isEmpty then
        { msg := "No migrations required - no actionable differences found",
          dir := dir, written := none }
      else
        let newMig : Migration := { version := version + 1, tasks := tasks }
        let dir1 := saveLastKnownState (GenerateMigration (version + 1) tasks dir) desiredConfig
        { msg := "Generated migration version " ++ toString (version + 1) ++
                 " with " ++ toString tasks.length ++ " tasks",
          dir := dir1, written := some newMig }

/-- Digit-string value: some when the characters are decimal digits and
there is at least one of them. -/
def digitsVal : List Char → Option Nat
  | [] => none
  | cs =>
    if cs.all Char.isDigit then
      some (cs.foldl (fun a c => a * 10 + (c.toNat - 48)) 0)
    else none

/-- Model of strconv.Atoi: optional sign, decimal digits, 64-bit signed
range; none models a non-nil error (including a range error). -/
def goAtoi (s : String) : Option Int :=
  match s.data with
  | '+' :: cs => (digitsVal cs).bind (fun n => if n ≤ 2 ^ 63 - 1 then some (n : Int) else none)
  | '-' :: cs => (digitsVal cs).bind (fun n => if n ≤ 2 ^ 63 then some (-(n : Int)) else none)
  | cs => (digitsVal cs).bind (fun n => if n ≤ 2 ^ 63 - 1 then some (n : Int) else none)

/-- Outcome of reading and decoding the tracking-path version value.  The
constructor crash models a Go runtime panic raised by the unchecked type
assertion on a value that is not a string. -/
inductive GetVerOut where
  | crash
  | fails (msg : String)
  | val (n : Int)
deriving Repr, DecidableEq

/-- Embeds getLastAppliedVersion (migrations.go:63-77 and 316-334) after a
successful read of the tracking path: secret models the returned secret
(none when the path holds nothing).  Both source variants share this value
handling; the read-error path simply propagates the client error and is
outside this decoding logic. -/
def getLastAppliedVersion (secret : Option Tree) : GetVerOut :=
  match secret with
  | none => .val 0
  | some data =>
    match lookupTree data "version" with
    | none => .val 0
    | some .vnil => .val 0
    | some (.vstr s) =>
      match goAtoi s with
      | some n => .val n
      | none => .fails "invalid version format"
    | some _ => .crash

/-- Parse outcome of one migration file in the directory, in glob order. -/
inductive FileEntry where
  | unreadable (name : String)
  | unparseable (name : String)
  | parsed (name : String) (m : Migration)

/-- Error values of the runner, mirroring the wrapping structure the
source builds with the w verb of the fmt package. -/
inductive VErr where
  | store (msg : String)
  | unsupportedMethod (m : String)
  | cancelled
  | taskFailed (i : Nat) (e : VErr)
  | migrationFailed (e : VErr)
  | execFailed (e : VErr)
  | applyFailed (v : Int) (e : VErr)
  | trackFailed
  | readFileFailed (name : String)
  | parseFileFailed (name : String)
  | loadFailed (e : VErr)
deriving Repr, DecidableEq

/-- Version-order insertion used by the sort model: an element goes in
front of the first strictly greater version. -/
def insertMig (a : Migration) : List Migration → List Migration
  | [] => [a]
  | b :: bs => if a.version < b.version then a :: b :: bs else b :: insertMig a bs

/-- Sorting by version, modelling the sort.Slice call of loadMigrations.
Equal versions keep their input order here; the source uses an unstable
sort, but equal versions only arise in the duplicate-version scenario,
where the two-element sort of the source also preserves the input order. -/
def sortMigs (l : List Migration) : List Migration :=
  l.foldl (fun acc x => insertMig x acc) []

/-- Collects the parsed migrations in glob order, failing on the first
unreadable or unparseable file, as the source loop does. -/
def parseEntries : List FileEntry → Except VErr (List Migration)
  | [] => .ok []
  | .unreadable n :: _ => .error (.readFileFailed n)
  | .unparseable n :: _ => .error (.parseFileFailed n)
  | .parsed _ m :: rest => (parseEntries rest).map (m :: ·)

/-- Embeds loadMigrations (migrations.go:92-119, identical in the second
variant): read and parse every globbed file, then sort by version.  There
is no duplicate-version check in the source. -/
def loadMigrations (dir : List FileEntry) : Except VErr (List Migration) :=
  (parseEntries dir).map sortMigs

/-- One client call reaching the remote store, recorded in issue order. -/
inductive StoreCall where
  | read (path : String)
  | write (path : String) (data : List (String × GoVal))
  | delete (path : String)

/-- Environment oracle for one run: taskOk says whether the client call of
the given migration version, task index and attempt index succeeds, errMsg
gives the opaque client error text when it fails, and trackOk says whether
the cursor write of a version succeeds. -/
structure Env where
  taskOk : Int → Nat → Nat → Bool
  errMsg : Int → Nat → Nat → String
  trackOk : Int → Bool

/-- Tracking path constant of the runner (migrations.go:56). -/
def trackingPath : String := "migrations/version"

/-- Payload of a cursor write: the version as a string under the key
version, as setLastAppliedVersion builds it with strconv.Itoa. -/
def trackData (v : Int) : List (String × GoVal) := [("version", .vstr (toString v))]

/-- Observable state of a run: the cursor value the tracking path decodes
to, every client call issued so far, and the versions on which
applyMigration was invoked, in order. -/
structure RState where
  tracking : Option Int
  calls : List StoreCall
  applied : List Int

namespace V1

/-- Embeds executeTask (migrations.go:195-214, first variant): dispatch on
the lowercase method names, issue the client call, and wrap a client
failure as a vault-operation error. -/
def executeTask (env : Env) (mv : Int) (ti att : Nat) (t : Task) :
    List StoreCall × Option VErr :=
  match t.method with
  | "read" =>
    ([.read t.path],
     if env.taskOk mv ti att then none else some (.store (env.errMsg mv ti att)))
  | "write" =>
    ([.write t.path t.data],
     if env.taskOk mv ti att then none else some (.store (env.errMsg mv ti att)))
  | "delete" =>
    ([.delete t.path],
     if env.taskOk mv ti att then none else some (.store (env.errMsg mv ti att)))
  | other => ([], some (.unsupportedMethod other))

/-- Observable result of one task goroutine: the client calls issued, the
backoff sleeps performed (in seconds), the number of executeTask
invocations, and the error sent to the error channel, if any. -/
structure TaskRun where
  calls : List StoreCall
  sleeps : List Nat
  attempts : Nat
  err : Option VErr

/-- Embeds the retry loop of the task goroutine in applyMigration
(migrations.go:151-172).  The parameter left is the remaining iteration
count (left + retries = 3), making the bounded for loop structural.  Two
source behaviours are modelled exactly as Go executes them:
the select with a default case takes the Done branch when the context is
already cancelled, sending the cancellation error and returning without
the task-failed wrap; and the break on a successful attempt exits only the
select statement, not the for loop, so the loop proceeds to the next
iteration and invokes executeTask again. -/
def taskGo (env : Env) (ctx : Bool) (mv : Int) (ti : Nat) (t : Task) :
    Nat → Nat → Option VErr → TaskRun → TaskRun
  | 0, _, err, acc => { acc with err := err.map (VErr.taskFailed ti) }
  | left + 1, retries, _, acc =>
    if ctx then { acc with err := some .cancelled }
    else
      match executeTask env mv ti retries t with
      | (cs, none) =>
        taskGo env ctx mv ti t left (retries + 1) none
          { acc with calls := acc.calls ++ cs, attempts := acc.attempts + 1 }
      | (cs, some e) =>
        let acc1 : TaskRun :=
          { acc with calls := acc.calls ++ cs, attempts := acc.attempts + 1 }
        let acc2 : TaskRun :=
          if retries < 2 then { acc1 with sleeps := acc1.sleeps ++ [retries + 1] } else acc1
        taskGo env ctx mv ti t left (retries + 1) (some e) acc2

/-- One full task goroutine run: three loop iterations starting with no
recorded error and no issued calls. -/
def taskRun (env : Env) (ctx : Bool) (mv : Int) (ti : Nat) (t : Task) : TaskRun :=
  taskGo env ctx mv ti t 3 0 none { calls := [], sleeps := [], attempts := 0, err := none }

/-- Embeds applyMigration (migrations.go:122-192, first variant).  The
dry-run check sits inside each task goroutine, so dry run issues no call
and collects no error.  Task goroutines are serialized in task order as a
canonical linearization: every property proved about the result (error
presence, calls reaching the store, version accounting) is independent of
the interleaving, and the first collected error stands for the
nondeterministic channel order. -/
def applyMigration (env : Env) (ctx dryRun : Bool) (m : Migration) :
    List StoreCall × Option VErr :=
  if dryRun then ([], none)
  else
    let runs := m.tasks.enum.map (fun it => taskRun env ctx m.version it.1 it.2)
    ((runs.map (·.calls)).flatten,
     match runs.filterMap (·.err) with
     | [] => none
     | e :: _ => some (.migrationFailed e))

/-- Embeds the pending loop of RunMigrations (migrations.go:232-245):
apply each migration with version greater than the cursor read at start,
then write the cursor through setLastAppliedVersion — unconditionally,
also in dry-run mode, since this variant has no dry-run guard around the
cursor write. -/
def runLoop (env : Env) (ctx dryRun : Bool) (last : Int) :
    List Migration → RState → RState × Option VErr
  | [], s => (s, none)
  | m :: ms, s =>
    if last < m.version then
      let ar := applyMigration env ctx dryRun m
      let s1 : RState :=
        { s with calls := s.calls ++ ar.1, applied := s.applied ++ [m.version] }
      match ar.2 with
      | some e => (s1, some (.applyFailed m.version e))
      | none =>
        let s2 : RState :=
          { s1 with calls := s1.calls ++ [.write trackingPath (trackData m.version)] }
        if env.trackOk m.version then
          runLoop env ctx dryRun last ms { s2 with tracking := some m.version }
        else (s2, some .trackFailed)
    else runLoop env ctx dryRun last ms s

/-- Embeds RunMigrations (migrations.go:217-249, first variant): read the
cursor once, load and sort the migrations, then run the pending loop.  The
stored cursor value is taken well formed as an Option Int; the raw value
handling, including the panic on a non-string value, is the top-level
getLastAppliedVersion. -/
def RunMigrations (env : Env) (ctx dryRun : Bool) (dir : List FileEntry)
    (t0 : Option Int) : RState × Option VErr :=
  let s0 : RState := { tracking := t0, calls := [.read trackingPath], applied := [] }
  match loadMigrations dir with
  | .error e => (s0, some (.loadFailed e))
  | .ok migs => runLoop env ctx dryRun (t0.getD 0) migs s0

end V1

namespace V2

/-- Embeds executeTask (migrations.go:422-446, second variant): dispatch
on the uppercase method names and return the client error unwrapped. -/
def executeTask (env : Env) (mv : Int) (ti att : Nat) (t : Task) :
    List StoreCall × Option VErr :=
  match t.method with
  | "POST" =>
    ([.write t.path t.data],
     if env.taskOk mv ti att then none else some (.store (env.errMsg mv ti att)))
  | "PUT" =>
    ([.write t.path t.data],
     if env.taskOk mv ti att then none else some (.store (env.errMsg mv ti att)))
  | "DELETE" =>
    ([.delete t.path],
     if env.taskOk mv ti att then none else some (.store (env.errMsg mv ti att)))
  | other => ([], some (.unsupportedMethod other))

/-- Embeds applyMigration (migrations.go:382-419, second variant): dry run
skips the whole migration before launching tasks; otherwise every task is
executed once (no retry loop in this variant) and a failure is wrapped as
a failed-to-execute error.  Goroutines are serialized in task order as in
the first variant. -/
def applyMigration (env : Env) (_ctx dryRun : Bool) (m : Migration) :
    List StoreCall × Option VErr :=
  if dryRun then ([], none)
  else
    let runs := m.tasks.enum.map (fun it => executeTask env m.version it.1 0 it.2)
    ((runs.map (·.1)).flatten,
     match runs.filterMap (·.2) with
     | [] => none
     | e :: _ => some (.execFailed e))

/-- Embeds the pending loop of RunMigrations (migrations.go:467-481):
versions at or below the cursor are skipped, and the cursor write is
guarded by the dry-run flag in this variant. -/
def runLoop (env : Env) (ctx dryRun : Bool) (last : Int) :
    List Migration → RState → RState × Option VErr
  | [], s => (s, none)
  | m :: ms, s =>
    if m.version ≤ last then runLoop env ctx dryRun last ms s
    else
      let ar := applyMigration env ctx dryRun m
      let s1 : RState :=
        { s with calls := s.calls ++ ar.1, applied := s.applied ++ [m.version] }
      match ar.2 with
      | some e => (s1, some (.applyFailed m.version e))
      | none =>
        if dryRun then runLoop env ctx dryRun last ms s1
        else
          let s2 : RState :=
            { s1 with calls := s1.calls ++ [.write trackingPath (trackData m.version)] }
          if env.trackOk m.version then
            runLoop env ctx dryRun last ms { s2 with tracking := some m.version }
          else (s2, some .trackFailed)

/-- Embeds RunMigrations (migrations.go:449-484, second variant): load the
migrations, read the cursor, then run the pending loop. -/
def RunMigrations (env : Env) (ctx dryRun : Bool) (dir : List FileEntry)
    (t0 : Option Int) : RState × Option VErr :=
  let s0 : RState := { tracking := t0, calls := [.read trackingPath], applied := [] }
  match loadMigrations dir with
  | .error e => (s0, some (.loadFailed e))
  | .ok migs => runLoop env ctx dryRun (t0.getD 0) migs s0

end V2

/-- Oracle under which every client call and every cursor write succeeds. -/
def envAll : Env :=
  { taskOk := fun _ _ _ => true, errMsg := fun _ _ _ => "boom", trackOk := fun _ => true }

/-- Oracle under which every client call fails while cursor writes
succeed. -/
def envFailAll : Env :=
  { taskOk := fun _ _ _ => false, errMsg := fun _ _ _ => "boom", trackOk := fun _ => true }

/-- Oracle failing every client call of migrations with version at least
two and succeeding otherwise; cursor writes succeed. -/
def envFailHigh : Env :=
  { taskOk := fun v _ _ => decide (v < 2), errMsg := fun _ _ _ => "boom",
    trackOk := fun _ => true }

end VaultMigrations

namespace VaultMigrations

/-- Tasks of a generated list that target one path. -/
def tasksAt (ts : List Task) (p : String) : List Task :=
  ts.filter (fun t => t.path == p)

/-- Derived form of the per-diff step of generateTasksFromDiffs: the task
list (empty or a singleton) one diff contributes. -/
def diffTask (diff : HCLDiff) : List Task :=
  if diff.oldValue.isNil && diff.newValue.isNil then []
  else
    [{ path := diff.path,
       method :=
         if !diff.oldValue.isNil && diff.newValue.isNil then "DELETE"
         else if !diff.oldValue.isNil then "PUT"
         else "POST",
       data := if !diff.newValue.isNil then toMapStringInterface diff.newValue else [] }]

/-- Derived form of the desired-side step of compareConfigs: the diffs one
desired entry contributes. -/
def desDiff (current : Tree) (pd : String × GoVal) : List HCLDiff :=
  match lookupTree current pd.1 with
  | none => [{ path := pd.1, newValue := pd.2 }]
  | some cv =>
    if ¬ configValuesEqual cv pd.2 then [{ path := pd.1, oldValue := cv, newValue := pd.2 }]
    else []

/-- Derived form of the removal-side step of compareConfigs: the diffs one
current entry contributes. -/
def curDiff (desired : Tree) (pc : String × GoVal) : List HCLDiff :=
  match lookupTree desired pc.1 with
  | none => [{ path := pc.1, oldValue := pc.2 }]
  | some _ => []

/-- Versions declared by the migration files of the directory that parse
(the quantity the claim about new version numbers speaks of; the snapshot
file is not a migration file). -/
def declaredVersions (dir : GenDir) : List Int :=
  (dir.migs.filterMap id).map (·.version)

/-- Greatest declared version, zero when there is none. -/
def declaredMax (dir : GenDir) : Int :=
  match declaredVersions dir with
  | [] => 0
  | v :: vs => vs.foldl max v

/-- Entry that loadMigrations must fail on. -/
def isBadEntry : FileEntry → Bool
  | .parsed _ _ => false
  | _ => true

/-- Migrations of the entries that parse, in glob order. -/
def parsedList (dir : List FileEntry) : List Migration :=
  dir.filterMap (fun f => match f with
    | .parsed _ m => some m
    | _ => none)

namespace V1

/-- Client call a task issues per attempt (derived from executeTask). -/
def taskCall (t : Task) : List StoreCall :=
  match t.method with
  | "read" => [.read t.path]
  | "write" => [.write t.path t.data]
  | "delete" => [.delete t.path]
  | _ => []

/-- Supported methods of the first-variant executeTask. -/
def supportedMethod (mth : String) : Bool :=
  mth == "read" || mth == "write" || mth == "delete"

/-- Client calls a supported, non-cancelled task issues over the three
loop iterations: the retry loop always performs all three attempts (see
taskGo), so the call appears three times whatever the outcomes. -/
def okCalls (m : Migration) : List StoreCall :=
  m.tasks.flatMap (fun t => taskCall t ++ taskCall t ++ taskCall t)

/-- Errors the tasks of a migration push to the error channel: a task
fails exactly when its third and final attempt fails, since the loop
overwrites the error variable on every attempt. -/
def finalErrs (env : Env) (m : Migration) : List VErr :=
  m.tasks.enum.filterMap (fun it =>
    if env.taskOk m.version it.1 2 then none
    else some (.taskFailed it.1 (.store (env.errMsg m.version it.1 2))))

end V1

/-- Cursor value after a run that applied the given versions in order on
top of the given starting value. -/
def finalTrack (vs : List Int) (t : Option Int) : Option Int :=
  match vs.getLast? with
  | some v => some v
  | none => t

theorem foldl_extend {α β : Type} (body : List β → α → List β) (g : α → List β)
    (hb : ∀ acc x, body acc x = acc ++ g x) :
    ∀ (l : List α) (init : List β), l.foldl body init = init ++ l.flatMap g := by
  intro l
  induction l with
  | nil => intro init; simp
  | cons x xs ih =>
    intro init
    simp only [List.foldl_cons, List.flatMap_cons, hb]
    rw [ih]
    simp

theorem compareConfigs_eq (current desired : Tree) :
    compareConfigs current desired =
      desired.flatMap (desDiff current) ++ current.flatMap (curDiff desired) := by
  unfold compareConfigs
  rw [foldl_extend _ (desDiff current), foldl_extend _ (curDiff desired)]
  · simp
  · intro acc pc
    unfold curDiff
    cases h : lookupTree desired pc.1 <;> simp [h]
  · intro acc pd
    unfold desDiff
    cases h : lookupTree current pd.1 <;> simp [h]
    split <;> simp

theorem generateTasksFromDiffs_eq (diffs : List HCLDiff) :
    generateTasksFromDiffs diffs = diffs.flatMap diffTask := by
  unfold generateTasksFromDiffs
  rw [foldl_extend _ diffTask]
  · simp
  · intro acc diff
    unfold diffTask
    split <;> simp

theorem diffTask_path (d : HCLDiff) : ∀ t ∈ diffTask d, t.path = d.path := by
  intro t ht
  unfold diffTask at ht
  split at ht
  · simp at ht
  · rw [List.mem_singleton] at ht
    rw [ht]

theorem desDiff_path (cur : Tree) (pd : String × GoVal) :
    ∀ d ∈ desDiff cur pd, d.path = pd.1 := by
  intro d hd
  unfold desDiff at hd
  split at hd
  · rw [List.mem_singleton] at hd; rw [hd]
  · split at hd
    · rw [List.mem_singleton] at hd; rw [hd]
    · simp at hd

theorem curDiff_path (des : Tree) (pc : String × GoVal) :
    ∀ d ∈ curDiff des pc, d.path = pc.1 := by
  intro d hd
  unfold curDiff at hd
  split at hd
  · rw [List.mem_singleton] at hd; rw [hd]
  · simp at hd

theorem lookupTree_cons (kv : String × GoVal) (rest : Tree) (p : String) :
    lookupTree (kv :: rest) p =
      if kv.1 == p then some kv.2 else lookupTree rest p := by
  unfold lookupTree
  cases h : (kv.1 == p) <;> simp [List.find?, h]

theorem lookupTree_of_mem_nodup (t : Tree) (kv : String × GoVal)
    (hmem : kv ∈ t) (hnd : (t.map Prod.fst).Nodup) :
    lookupTree t kv.1 = some kv.2 := by
  induction t with
  | nil => simp at hmem
  | cons hd tl ih =>
    rw [List.map_cons, List.nodup_cons] at hnd
    rcases List.mem_cons.mp hmem with h | h
    · rw [h, lookupTree_cons]
      simp
    · rw [lookupTree_cons]
      have hne : (hd.1 == kv.1) = false := by
        rw [beq_eq_false_iff_ne]
        intro hcontra
        exact hnd.1 (hcontra ▸ List.mem_map_of_mem Prod.fst h)
      rw [hne]
      simp only [Bool.false_eq_true, if_false]
      exact ih h hnd.2

theorem mem_val_of_lookupTree (t : Tree) (p : String) (v : GoVal)
    (h : lookupTree t p = some v) : ∃ kv ∈ t, kv.2 = v := by
  unfold lookupTree at h
  cases hf : t.find? (fun kv => kv.1 == p) with
  | none => rw [hf] at h; simp at h
  | some kv =>
    rw [hf] at h
    simp only [Option.map_some'] at h
    exact ⟨kv, List.mem_of_find?_eq_some hf, Option.some.inj h⟩

theorem flatMap_filter_path (p : String) (g : String × GoVal → List Task)
    (hg : ∀ kv t, t ∈ g kv → t.path = kv.1) :
    ∀ (l : List (String × GoVal)), (l.map Prod.fst).Nodup →
      (l.flatMap g).filter (fun t => t.path == p) =
        (match lookupTree l p with
         | some v => g (p, v)
         | none => []) := by
  intro l
  induction l with
  | nil => intro _; simp [lookupTree]
  | cons kv rest ih =>
    intro hnd
    rw [List.map_cons, List.nodup_cons] at hnd
    rw [List.flatMap_cons, List.filter_append, lookupTree_cons]
    cases hk : (kv.1 == p) with
    | true =>
      have hkp : kv.1 = p := by simpa using hk
      have h1 : (g kv).filter (fun t => t.path == p) = g kv := by
        rw [List.filter_eq_self]
        intro t ht
        simp [hg kv t ht, hkp]
      have hpnot : p ∉ rest.map Prod.fst := hkp ▸ hnd.1
      have h2 : (rest.flatMap g).filter (fun t => t.path == p) = [] := by
        rw [List.filter_eq_nil_iff]
        intro t ht
        obtain ⟨kv2, hkv2, htg⟩ := List.mem_flatMap.mp ht
        rw [hg kv2 t htg]
        simp only [beq_iff_eq]
        intro hcontra
        exact hpnot (hcontra ▸ List.mem_map_of_mem Prod.fst hkv2)
      rw [h1, h2]
      have hkv : (p, kv.2) = kv := by rw [← hkp]
      rw [← hkv]
      simp
    | false =>
      have h1 : (g kv).filter (fun t => t.path == p) = [] := by
        rw [List.filter_eq_nil_iff]
        intro t ht
        rw [hg kv t ht]
        simp only [hk]
        simp
      rw [h1, ih hnd.2]
      simp

theorem tasksAt_generated (cur des : Tree) (p : String)
    (hc : (cur.map Prod.fst).Nodup) (hd : (des.map Prod.fst).Nodup) :
    tasksAt (generateTasksFromDiffs (compareConfigs cur des)) p =
      (match lookupTree des p with
       | some dv => (desDiff cur (p, dv)).flatMap diffTask
       | none => [])
      ++ (match lookupTree cur p with
          | some cv => (curDiff des (p, cv)).flatMap diffTask
          | none => []) := by
  have hgdes : ∀ kv t, t ∈ (desDiff cur kv).flatMap diffTask → t.path = kv.1 := by
    intro kv t ht
    obtain ⟨d, hdmem, htd⟩ := List.mem_flatMap.mp ht
    rw [diffTask_path d t htd]
    exact desDiff_path cur kv d hdmem
  have hgcur : ∀ kv t, t ∈ (curDiff des kv).flatMap diffTask → t.path = kv.1 := by
    intro kv t ht
    obtain ⟨d, hdmem, htd⟩ := List.mem_flatMap.mp ht
    rw [diffTask_path d t htd]
    exact curDiff_path des kv d hdmem
  unfold tasksAt
  rw [compareConfigs_eq, generateTasksFromDiffs_eq, List.flatMap_append, List.filter_append,
      List.flatMap_assoc, List.flatMap_assoc,
      flatMap_filter_path p _ hgdes des hd, flatMap_filter_path p _ hgcur cur hc]

@[simp] theorem isNil_vnil : GoVal.vnil.isNil = true := rfl

theorem configValuesEqual_self (v : GoVal) : configValuesEqual v v = true := by
  cases v <;> simp [configValuesEqual]

theorem compareConfigs_self (c : Tree) (hnd : (c.map Prod.fst).Nodup) :
    compareConfigs c c = [] := by
  rw [compareConfigs_eq]
  have h1 : c.flatMap (desDiff c) = [] := by
    rw [List.flatMap_eq_nil_iff]
    intro pd hpd
    unfold desDiff
    rw [lookupTree_of_mem_nodup c pd hpd hnd]
    simp [configValuesEqual_self]
  have h2 : c.flatMap (curDiff c) = [] := by
    rw [List.flatMap_eq_nil_iff]
    intro pc hpc
    unfold curDiff
    rw [lookupTree_of_mem_nodup c pc hpc hnd]
  rw [h1, h2]
  rfl

/-- C7 (amended): for trees whose values are non-nil, the generator emits
per path exactly one POST write task when the path is new, one PUT write
task when the value changed, one DELETE task when the path was removed,
and nothing when the value is unchanged or the path absent on both sides.
The amendment restricts the claim to non-nil values: the counterexample
shows that a nil desired value yields a Delete task instead of the Write
task the claim prescribes. -/
theorem C7_per_path_tasks (cur des : Tree) (p : String)
    (hc : (cur.map Prod.fst).Nodup) (hd : (des.map Prod.fst).Nodup)
    (hcn : ∀ kv ∈ cur, kv.2.isNil = false) (hdn : ∀ kv ∈ des, kv.2.isNil = false) :
    (∀ dv, lookupTree des p = some dv → lookupTree cur p = none →
       tasksAt (generateTasksFromDiffs (compareConfigs cur des)) p =
         [{ path := p, method := "POST", data := toMapStringInterface dv }]) ∧
    (∀ cv dv, lookupTree cur p = some cv → lookupTree des p = some dv →
       configValuesEqual cv dv = false →
       tasksAt (generateTasksFromDiffs (compareConfigs cur des)) p =
         [{ path := p, method := "PUT", data := toMapStringInterface dv }]) ∧
    (∀ cv, lookupTree cur p = some cv → lookupTree des p = none →
       tasksAt (generateTasksFromDiffs (compareConfigs cur des)) p =
         [{ path := p, method := "DELETE", data := [] }]) ∧
    (∀ cv dv, lookupTree cur p = some cv → lookupTree des p = some dv →
       configValuesEqual cv dv = true →
       tasksAt (generateTasksFromDiffs (compareConfigs cur des)) p = []) ∧
    (lookupTree cur p = none → lookupTree des p = none →
       tasksAt (generateTasksFromDiffs (compareConfigs cur des)) p = []) := by
  refine ⟨?_, ?_, ?_, ?_, ?_⟩
  · intro dv hdes hcur
    have hdvn : dv.isNil = false := by
      obtain ⟨kv, hkv, hkv2⟩ := mem_val_of_lookupTree des p dv hdes
      exact hkv2 ▸ hdn kv hkv
    rw [tasksAt_generated cur des p hc hd, hdes, hcur]
    unfold desDiff
    simp [hcur, diffTask, hdvn]
  · intro cv dv hcur hdes hne
    have hdvn : dv.isNil = false := by
      obtain ⟨kv, hkv, hkv2⟩ := mem_val_of_lookupTree des p dv hdes
      exact hkv2 ▸ hdn kv hkv
    have hcvn : cv.isNil = false := by
      obtain ⟨kv, hkv, hkv2⟩ := mem_val_of_lookupTree cur p cv hcur
      exact hkv2 ▸ hcn kv hkv
    rw [tasksAt_generated cur des p hc hd, hdes, hcur]
    unfold desDiff curDiff
    simp [hcur, hdes, hne, diffTask, hdvn, hcvn]
  · intro cv hcur hdes
    have hcvn : cv.isNil = false := by
      obtain ⟨kv, hkv, hkv2⟩ := mem_val_of_lookupTree cur p cv hcur
      exact hkv2 ▸ hcn kv hkv
    rw [tasksAt_generated cur des p hc hd, hdes, hcur]
    unfold curDiff
    simp [hdes, diffTask, hcvn]
  · intro cv dv hcur hdes heq
    rw [tasksAt_generated cur des p hc hd, hdes, hcur]
    unfold desDiff curDiff
    simp [hcur, hdes, heq]
  · intro hcur hdes
    rw [tasksAt_generated cur des p hc hd, hdes, hcur]
    rfl

/-- C7 counterexample: the claim states that a path present in the
current tree with a value not structurally equal to the desired value
emits a Write task, universally over trees.  With current value the
string x and desired value nil the two values are not structurally equal,
yet the generator emits a single Delete task and no Write task. -/
theorem C7_counterexample :
    configValuesEqual (.vstr "x") .vnil = false ∧
    generateTasksFromDiffs (compareConfigs [("p", .vstr "x")] [("p", .vnil)])
      = [{ path := "p", method := "DELETE", data := [] }] :=
  ⟨rfl, rfl⟩

/-- Witness instantiating C7_per_path_tasks on concrete one-entry trees
with a changed value. -/
theorem C7_per_path_tasks_witness :
    tasksAt (generateTasksFromDiffs (compareConfigs
        [("a", .vstr "1")] [("a", .vstr "2")])) "a"
      = [{ path := "a", method := "PUT", data := [("value", .vstr "2")] }] :=
  (C7_per_path_tasks [("a", .vstr "1")] [("a", .vstr "2")] "a"
      (by simp) (by simp)
      (by intro kv h; rw [List.mem_singleton] at h; subst h; rfl)
      (by intro kv h; rw [List.mem_singleton] at h; subst h; rfl)).2.1
    (.vstr "1") (.vstr "2") rfl rfl rfl

/-- C8: a path whose value is structurally identical in both trees
produces no task, and generating against an unchanged tree is a no-op
that writes no migration file and leaves the directory unchanged. -/
theorem C8_diff_minimality (cur des c : Tree)
    (hc : (cur.map Prod.fst).Nodup) (hd : (des.map Prod.fst).Nodup)
    (hcc : (c.map Prod.fst).Nodup) :
    (∀ p cv dv, lookupTree cur p = some cv → lookupTree des p = some dv →
       configValuesEqual cv dv = true →
       tasksAt (generateTasksFromDiffs (compareConfigs cur des)) p = []) ∧
    (∀ dir : GenDir, GenerateIntelligentMigration (some c) c dir =
       { msg := "No migrations required - configurations are identical",
         dir := dir, written := none }) := by
  constructor
  · intro p cv dv hcur hdes heq
    rw [tasksAt_generated cur des p hc hd, hdes, hcur]
    unfold desDiff curDiff
    simp [hcur, hdes, heq]
  · intro dir
    unfold GenerateIntelligentMigration
    simp [compareConfigs_self c hcc]

/-- Witness instantiating C8_diff_minimality on a concrete one-entry
tree. -/
theorem C8_diff_minimality_witness :
    tasksAt (generateTasksFromDiffs (compareConfigs
        [("a", .vstr "1")] [("a", .vstr "1")])) "a" = [] ∧
    GenerateIntelligentMigration (some [("a", .vstr "1")]) [("a", .vstr "1")]
        { migs := [], snapshot := none }
      = { msg := "No migrations required - configurations are identical",
          dir := { migs := [], snapshot := none }, written := none } :=
  ⟨(C8_diff_minimality [("a", .vstr "1")] [("a", .vstr "1")] [("a", .vstr "1")]
      (by simp) (by simp) (by simp)).1 "a" (.vstr "1") (.vstr "1") rfl rfl rfl,
   (C8_diff_minimality [("a", .vstr "1")] [("a", .vstr "1")] [("a", .vstr "1")]
      (by simp) (by simp) (by simp)).2 { migs := [], snapshot := none }⟩

theorem le_foldl_max (v : Int) (vs : List Int) : v ≤ vs.foldl max v := by
  induction vs generalizing v with
  | nil => exact le_refl v
  | cons w ws ih =>
    rw [List.foldl_cons]
    exact le_trans (le_max_left v w) (ih (max v w))

theorem getLatestVersion_eq_declaredMax (dir : GenDir)
    (hpos : ∀ v ∈ declaredVersions dir, 1 ≤ v) :
    getLatestVersion dir = declaredMax dir := by
  unfold getLatestVersion globParses
  cases hs : dir.snapshot with
  | none =>
    simp only [List.append_nil]
    cases hm : dir.migs with
    | nil => simp [declaredMax, declaredVersions, hm]
    | cons f fs =>
      simp only [List.isEmpty_cons, if_false, Bool.false_eq_true]
      unfold declaredMax declaredVersions
      rw [hm]
  | some snap =>
    have hne : (dir.migs ++ [some ({ version := 0, tasks := [] } : Migration)]).isEmpty
        = false := by
      simp
    simp only [hne, Bool.false_eq_true, if_false, List.filterMap_append, List.map_append]
    unfold declaredMax
    cases hdv : declaredVersions dir with
    | nil =>
      unfold declaredVersions at hdv
      rw [hdv]
      simp [List.filterMap]
    | cons v vs =>
      unfold declaredVersions at hdv
      rw [hdv]
      simp only [List.filterMap_cons, List.cons_append, List.nil_append]
      show (vs ++ [0]).foldl max v = vs.foldl max v
      rw [List.foldl_append]
      have h1 : 1 ≤ v := hpos v (by unfold declaredVersions; rw [hdv]; exact List.mem_cons_self v vs)
      have h0 : (0 : Int) ≤ vs.foldl max v :=
        le_trans (le_trans zero_le_one h1) (le_foldl_max v vs)
      simp [max_eq_left h0]

/-- Claim C9: when the generator emits a new change-set, its version is
one more than the greatest version declared by the migration files that
parse in the directory, and one when the directory holds no migration
file.  The hypothesis that declared versions are at least one is the
data-model invariant (versions are positive); it keeps the version-zero
entry that the glob contributes for the snapshot file from mattering. -/
theorem C9_new_version (cur : Option Tree) (des : Tree) (dir : GenDir)
    (hpos : ∀ v ∈ declaredVersions dir, 1 ≤ v) :
    (∀ mw, (GenerateIntelligentMigration cur des dir).written = some mw →
       mw.version = declaredMax dir + 1) ∧
    (dir.migs = [] → ∀ mw,
       (GenerateIntelligentMigration cur des dir).written = some mw →
       mw.version = 1) := by
  have hlat := getLatestVersion_eq_declaredMax dir hpos
  have hmain : ∀ mw, (GenerateIntelligentMigration cur des dir).written = some mw →
      mw.version = declaredMax dir + 1 := by
    intro mw hmw
    simp only [GenerateIntelligentMigration] at hmw
    split at hmw
    · split at hmw
      · simp at hmw
      · simp only [Option.some.injEq] at hmw
        rw [← hmw, hlat]
    · split at hmw
      · simp at hmw
      · split at hmw
        · simp at hmw
        · simp only [Option.some.injEq] at hmw
          rw [← hmw, hlat]
  constructor
  · exact hmain
  · intro hnil mw hmw
    have h0 : declaredMax dir = 0 := by
      unfold declaredMax declaredVersions
      rw [hnil]
      rfl
    rw [hmain mw hmw, h0]
    decide

/-- Witness instantiating C9_new_version on a directory holding one
migration file of version two: the generated change-set has version
three. -/
theorem C9_new_version_witness :
    (∀ v ∈ declaredVersions
        { migs := [some { version := 2, tasks := [] }], snapshot := none }, 1 ≤ v) ∧
    ∀ mw, (GenerateIntelligentMigration none [("p", .vstr "x")]
        { migs := [some { version := 2, tasks := [] }],
          snapshot := none }).written = some mw →
      mw.version =
        declaredMax { migs := [some { version := 2, tasks := [] }], snapshot := none } + 1 :=
  ⟨by decide,
   (C9_new_version none [("p", .vstr "x")]
      { migs := [some { version := 2, tasks := [] }], snapshot := none } (by decide)).1⟩

theorem mem_insertMig (a x : Migration) (l : List Migration) :
    x ∈ insertMig a l ↔ x = a ∨ x ∈ l := by
  induction l with
  | nil => simp [insertMig]
  | cons b bs ih =>
    unfold insertMig
    split
    · simp [List.mem_cons]
    · rw [List.mem_cons, ih, List.mem_cons]
      tauto

theorem pairwise_insertMig (a : Migration) (l : List Migration)
    (hl : l.Pairwise (fun x y => x.version ≤ y.version)) :
    (insertMig a l).Pairwise (fun x y => x.version ≤ y.version) := by
  induction l with
  | nil => simp [insertMig]
  | cons b bs ih =>
    rw [List.pairwise_cons] at hl
    unfold insertMig
    split
    · rename_i hab
      rw [List.pairwise_cons]
      refine ⟨?_, List.pairwise_cons.mpr hl⟩
      intro x hx
      rcases List.mem_cons.mp hx with h | h
      · exact le_of_lt (h ▸ hab)
      · exact le_trans (le_of_lt hab) (hl.1 x h)
    · rename_i hab
      rw [List.pairwise_cons]
      refine ⟨?_, ih hl.2⟩
      intro x hx
      rcases (mem_insertMig a x bs).mp hx with h | h
      · exact h ▸ (not_lt.mp hab)
      · exact hl.1 x h

theorem sortMigs_sorted_aux (l : List Migration) :
    ∀ acc, acc.Pairwise (fun x y => x.version ≤ y.version) →
      (l.foldl (fun acc x => insertMig x acc) acc).Pairwise
        (fun x y => x.version ≤ y.version) := by
  induction l with
  | nil => intro acc h; exact h
  | cons x xs ih =>
    intro acc h
    rw [List.foldl_cons]
    exact ih (insertMig x acc) (pairwise_insertMig x acc h)

theorem sortMigs_sorted (l : List Migration) :
    (sortMigs l).Pairwise (fun x y => x.version ≤ y.version) :=
  sortMigs_sorted_aux l [] List.Pairwise.nil

theorem insertMig_perm (a : Migration) (l : List Migration) :
    (insertMig a l).Perm (a :: l) := by
  induction l with
  | nil => exact List.Perm.refl _
  | cons b bs ih =>
    unfold insertMig
    split
    · exact List.Perm.refl _
    · exact (List.Perm.cons b ih).trans (List.Perm.swap a b bs)

theorem sortMigs_perm_aux (l : List Migration) :
    ∀ acc, (l.foldl (fun acc x => insertMig x acc) acc).Perm (acc ++ l) := by
  induction l with
  | nil => intro acc; simp
  | cons x xs ih =>
    intro acc
    rw [List.foldl_cons]
    refine (ih (insertMig x acc)).trans ?_
    refine (List.Perm.append_right xs (insertMig_perm x acc)).trans ?_
    exact List.perm_middle.symm

theorem sortMigs_perm (l : List Migration) : (sortMigs l).Perm l := by
  have h := sortMigs_perm_aux l []
  simpa using h

theorem parseEntries_ok (dir : List FileEntry) :
    ∀ ms, parseEntries dir = .ok ms → ms = parsedList dir := by
  induction dir with
  | nil =>
    intro ms h
    simp [parseEntries] at h
    rw [h]
    rfl
  | cons f fs ih =>
    intro ms h
    cases f with
    | unreadable n => simp [parseEntries] at h
    | unparseable n => simp [parseEntries] at h
    | parsed n m =>
      simp only [parseEntries] at h
      cases hr : parseEntries fs with
      | error e => rw [hr] at h; simp [Except.map] at h
      | ok ms2 =>
        rw [hr] at h
        simp only [Except.map, Except.ok.injEq] at h
        rw [← h]
        show m :: ms2 = parsedList (FileEntry.parsed n m :: fs)
        unfold parsedList
        rw [List.filterMap_cons]
        simp only []
        rw [ih ms2 hr]
        rfl

theorem parseEntries_error (dir : List FileEntry)
    (h : ∃ f ∈ dir, isBadEntry f = true) : ∃ e, parseEntries dir = .error e := by
  induction dir with
  | nil => simp at h
  | cons f fs ih =>
    cases f with
    | unreadable n => exact ⟨.readFileFailed n, rfl⟩
    | unparseable n => exact ⟨.parseFileFailed n, rfl⟩
    | parsed n m =>
      obtain ⟨g, hg, hbad⟩ := h
      rcases List.mem_cons.mp hg with hh | hh
      · rw [hh] at hbad; simp [isBadEntry] at hbad
      · obtain ⟨e, he⟩ := ih ⟨g, hh, hbad⟩
        refine ⟨e, ?_⟩
        show ((parseEntries fs).map (m :: ·)) = .error e
        rw [he]
        rfl

/-- Claim C5 (amended): loadMigrations returns the change-sets sorted
ascending by version and fails with an error when any file is unreadable
or not valid structured data (bad files are a hard failure, never
skipped); it performs no duplicate-version check, so files declaring the
same version are all returned — the counterexample shows the
duplicate-version part of the claim fails on the code. -/
theorem C5_load_migrations (dir : List FileEntry) :
    (∀ migs, loadMigrations dir = .ok migs →
       migs.Pairwise (fun a b => a.version ≤ b.version) ∧ migs.Perm (parsedList dir)) ∧
    ((∃ f ∈ dir, isBadEntry f = true) → ∃ e, loadMigrations dir = .error e) := by
  constructor
  · intro migs h
    unfold loadMigrations at h
    cases hr : parseEntries dir with
    | error e => rw [hr] at h; simp [Except.map] at h
    | ok ms =>
      rw [hr] at h
      simp only [Except.map, Except.ok.injEq] at h
      rw [← h]
      exact ⟨sortMigs_sorted ms, (parseEntries_ok dir ms hr) ▸ sortMigs_perm ms⟩
  · intro hbad
    obtain ⟨e, he⟩ := parseEntries_error dir hbad
    refine ⟨e, ?_⟩
    unfold loadMigrations
    rw [he]
    rfl

/-- Claim C5 counterexample: two files declaring the same version load
without any error — loadMigrations has no duplicate-version failure,
contrary to the claim. -/
theorem C5_counterexample :
    loadMigrations
        [.parsed "0001_a" { version := 1, tasks := [] },
         .parsed "0002_b"
           { version := 1,
             tasks := [{ path := "p", method := "write", data := [] }] }]
      = .ok [{ version := 1, tasks := [] },
             { version := 1,
               tasks := [{ path := "p", method := "write", data := [] }] }] := rfl

/-- Witness instantiating C5_load_migrations: an unsorted two-file
directory loads sorted, and a directory with an unparseable file fails. -/
theorem C5_load_migrations_witness :
    (loadMigrations [.parsed "b" { version := 2, tasks := [] },
                     .parsed "a" { version := 1, tasks := [] }]
       = .ok [{ version := 1, tasks := [] }, { version := 2, tasks := [] }] ∧
     ([{ version := 1, tasks := [] }, { version := 2, tasks := [] }] :
         List Migration).Pairwise (fun a b => a.version ≤ b.version)) ∧
    ∃ e, loadMigrations [.parsed "a" { version := 1, tasks := [] }, .unparseable "b"]
       = .error e :=
  ⟨⟨rfl,
    ((C5_load_migrations [.parsed "b" { version := 2, tasks := [] },
        .parsed "a" { version := 1, tasks := [] }]).1
      [{ version := 1, tasks := [] }, { version := 2, tasks := [] }] rfl).1⟩,
   (C5_load_migrations [.parsed "a" { version := 1, tasks := [] }, .unparseable "b"]).2
     ⟨.unparseable "b", by simp, rfl⟩⟩

namespace V1

theorem taskRun_calls (env : Env) (mv : Int) (ti : Nat) (t : Task)
    (hm : supportedMethod t.method = true) :
    (taskRun env false mv ti t).calls = taskCall t ++ taskCall t ++ taskCall t := by
  obtain ⟨p, mth, d⟩ := t
  simp only [supportedMethod, Bool.or_eq_true, beq_iff_eq] at hm
  rcases hm with (h | h) | h <;> subst h <;>
    cases h0 : env.taskOk mv ti 0 <;> cases h1 : env.taskOk mv ti 1 <;>
      cases h2 : env.taskOk mv ti 2 <;>
        simp [taskRun, taskGo, executeTask, taskCall, h0, h1, h2]

theorem taskRun_err (env : Env) (mv : Int) (ti : Nat) (t : Task)
    (hm : supportedMethod t.method = true) :
    (taskRun env false mv ti t).err =
      if env.taskOk mv ti 2 then none
      else some (.taskFailed ti (.store (env.errMsg mv ti 2))) := by
  obtain ⟨p, mth, d⟩ := t
  simp only [supportedMethod, Bool.or_eq_true, beq_iff_eq] at hm
  rcases hm with (h | h) | h <;> subst h <;>
    cases h0 : env.taskOk mv ti 0 <;> cases h1 : env.taskOk mv ti 1 <;>
      cases h2 : env.taskOk mv ti 2 <;>
        simp [taskRun, taskGo, executeTask, h0, h1, h2]

theorem applyRuns_calls (env : Env) (mv : Int) :
    ∀ (ts : List Task) (n : Nat), (∀ t ∈ ts, supportedMethod t.method = true) →
      (((ts.enumFrom n).map (fun it => taskRun env false mv it.1 it.2)).map
        (fun r => r.calls)).flatten
        = ts.flatMap (fun t => taskCall t ++ taskCall t ++ taskCall t) := by
  intro ts
  induction ts with
  | nil => intro n _; rfl
  | cons t ts ih =>
    intro n hm
    show ((taskRun env false mv n t).calls :: _).flatten = _
    rw [List.flatten_cons, List.flatMap_cons,
        taskRun_calls env mv n t (hm t (List.mem_cons_self t ts)),
        ih (n + 1) (fun u hu => hm u (List.mem_cons_of_mem t hu))]

theorem applyRuns_errs (env : Env) (mv : Int) :
    ∀ (ts : List Task) (n : Nat), (∀ t ∈ ts, supportedMethod t.method = true) →
      ((ts.enumFrom n).map (fun it => taskRun env false mv it.1 it.2)).filterMap
          (fun r => r.err)
        = (ts.enumFrom n).filterMap (fun it =>
            if env.taskOk mv it.1 2 then none
            else some (.taskFailed it.1 (.store (env.errMsg mv it.1 2)))) := by
  intro ts
  induction ts with
  | nil => intro n _; rfl
  | cons t ts ih =>
    intro n hm
    have hstep : (t :: ts).enumFrom n = (n, t) :: ts.enumFrom (n + 1) := rfl
    rw [hstep, List.map_cons, List.filterMap_cons, List.filterMap_cons,
        taskRun_err env mv n t (hm t (List.mem_cons_self t ts)),
        ih (n + 1) (fun u hu => hm u (List.mem_cons_of_mem t hu))]

theorem applyMigration_supported (env : Env) (m : Migration)
    (hm : ∀ t ∈ m.tasks, supportedMethod t.method = true) :
    applyMigration env false false m =
      (okCalls m, ((finalErrs env m).head?).map .migrationFailed) := by
  unfold applyMigration
  simp only [Bool.false_eq_true, if_false]
  unfold okCalls finalErrs
  simp only [List.enum]
  rw [applyRuns_calls env m.version m.tasks 0 hm]
  rw [applyRuns_errs env m.version m.tasks 0 hm]
  cases hh : (m.tasks.enumFrom 0).filterMap (fun it =>
      if env.taskOk m.version it.1 2 then none
      else some (VErr.taskFailed it.1 (.store (env.errMsg m.version it.1 2)))) with
  | nil => rfl
  | cons e es => rfl

theorem finalErrs_nil (env : Env) (m : Migration)
    (h : ∀ i, env.taskOk m.version i 2 = true) : finalErrs env m = [] := by
  unfold finalErrs
  rw [List.filterMap_eq_nil_iff]
  intro it _
  simp [h it.1]

theorem finalErrs_mem_shape (env : Env) (m : Migration) (e : VErr)
    (he : e ∈ finalErrs env m) : ∃ i msg, e = .taskFailed i (.store msg) := by
  unfold finalErrs at he
  obtain ⟨it, _, hit⟩ := List.mem_filterMap.mp he
  by_cases hok : env.taskOk m.version it.1 2 = true
  · rw [if_pos hok] at hit; cases hit
  · rw [if_neg hok] at hit
    exact ⟨it.1, env.errMsg m.version it.1 2, (Option.some.inj hit).symm⟩

end V1

theorem finalTrack_cons (v : Int) (vs : List Int) (t : Option Int) :
    finalTrack (v :: vs) t = finalTrack vs (some v) := by
  cases vs with
  | nil => rfl
  | cons w ws => rfl

theorem pairwise_lt_le_getLast (l : List Int) (hl : l.Pairwise (· < ·)) :
    ∀ w ∈ l, ∀ v, l.getLast? = some v → w ≤ v := by
  induction l with
  | nil => intro w hw; simp at hw
  | cons a t ih =>
    rw [List.pairwise_cons] at hl
    intro w hw v hv
    cases t with
    | nil =>
      have hw2 : w = a := List.mem_singleton.mp hw
      have hv2 : v = a := (Option.some.inj hv).symm
      rw [hw2, hv2]
    | cons b t2 =>
      have hv2 : (b :: t2).getLast? = some v := hv
      rcases List.mem_cons.mp hw with h | h
      · have hvmem : v ∈ b :: t2 := List.mem_of_mem_getLast? hv2
        exact le_of_lt (h ▸ hl.1 v hvmem)
      · exact ih hl.2 w h v hv2

namespace V1

theorem runLoop_allok (env : Env)
    (htask : ∀ v i a, env.taskOk v i a = true)
    (htrack : ∀ v, env.trackOk v = true) (last : Int) :
    ∀ (migs : List Migration) (s : RState),
      (∀ mg ∈ migs, ∀ t ∈ mg.tasks, supportedMethod t.method = true) →
      runLoop env false false last migs s =
        ({ tracking := finalTrack
             ((migs.filter (fun mg => decide (last < mg.version))).map (·.version))
             s.tracking,
           calls := s.calls ++
             (migs.filter (fun mg => decide (last < mg.version))).flatMap
               (fun mg => okCalls mg ++ [.write trackingPath (trackData mg.version)]),
           applied := s.applied ++
             (migs.filter (fun mg => decide (last < mg.version))).map (·.version) },
         none) := by
  intro migs
  induction migs with
  | nil =>
    intro s _
    simp [runLoop, finalTrack]
  | cons m ms ih =>
    intro s hm
    by_cases hp : last < m.version
    · have hfilter : (m :: ms).filter (fun mg => decide (last < mg.version))
          = m :: ms.filter (fun mg => decide (last < mg.version)) := by
        simp [List.filter_cons, hp]
      rw [hfilter]
      simp only [runLoop]
      rw [if_pos hp, applyMigration_supported env m (hm m (List.mem_cons_self m ms)),
          finalErrs_nil env m (fun i => htask m.version i 2)]
      simp only [List.head?_nil, Option.map_none']
      rw [htrack m.version]
      simp only [if_true]
      rw [ih _ (fun mg hmg => hm mg (List.mem_cons_of_mem m hmg))]
      simp [finalTrack_cons, List.append_assoc]
    · have hfilter : (m :: ms).filter (fun mg => decide (last < mg.version))
          = ms.filter (fun mg => decide (last < mg.version)) := by
        simp [List.filter_cons, hp]
      rw [hfilter]
      simp only [runLoop]
      rw [if_neg hp]
      exact ih s (fun mg hmg => hm mg (List.mem_cons_of_mem m hmg))

theorem runLoop_pre (env : Env)
    (htrack : ∀ v, env.trackOk v = true) (last : Int) :
    ∀ (pre rest : List Migration) (s : RState),
      (∀ mg ∈ pre, ∀ i a, env.taskOk mg.version i a = true) →
      (∀ mg ∈ pre, ∀ t ∈ mg.tasks, supportedMethod t.method = true) →
      runLoop env false false last (pre ++ rest) s =
        runLoop env false false last rest
          { tracking := finalTrack
              ((pre.filter (fun mg => decide (last < mg.version))).map (·.version))
              s.tracking,
            calls := s.calls ++
              (pre.filter (fun mg => decide (last < mg.version))).flatMap
                (fun mg => okCalls mg ++ [.write trackingPath (trackData mg.version)]),
            applied := s.applied ++
              (pre.filter (fun mg => decide (last < mg.version))).map (·.version) } := by
  intro pre
  induction pre with
  | nil =>
    intro rest s _ _
    simp [finalTrack]
  | cons m pr ih =>
    intro rest s htaskp hmp
    by_cases hp : last < m.version
    · have hfilter : (m :: pr).filter (fun mg => decide (last < mg.version))
          = m :: pr.filter (fun mg => decide (last < mg.version)) := by
        simp [List.filter_cons, hp]
      rw [hfilter, List.cons_append]
      simp only [runLoop]
      rw [if_pos hp,
          applyMigration_supported env m (hmp m (List.mem_cons_self m pr)),
          finalErrs_nil env m (fun i => htaskp m (List.mem_cons_self m pr) i 2)]
      simp only [List.head?_nil, Option.map_none']
      rw [htrack m.version]
      simp only [if_true]
      rw [ih rest _ (fun mg hmg => htaskp mg (List.mem_cons_of_mem m hmg))
            (fun mg hmg => hmp mg (List.mem_cons_of_mem m hmg))]
      simp [finalTrack_cons, List.append_assoc]
    · have hfilter : (m :: pr).filter (fun mg => decide (last < mg.version))
          = pr.filter (fun mg => decide (last < mg.version)) := by
        simp [List.filter_cons, hp]
      rw [hfilter, List.cons_append]
      simp only [runLoop]
      rw [if_neg hp]
      exact ih rest s (fun mg hmg => htaskp mg (List.mem_cons_of_mem m hmg))
        (fun mg hmg => hmp mg (List.mem_cons_of_mem m hmg))

theorem runLoop_fail_head (env : Env) (cur0 : Int) (mf : Migration)
    (post : List Migration) (s : RState)
    (hmf : ∀ t ∈ mf.tasks, supportedMethod t.method = true)
    (hpend : cur0 < mf.version)
    (hfail : finalErrs env mf ≠ []) :
    ∃ i msg,
      runLoop env false false cur0 (mf :: post) s =
        ({ s with calls := s.calls ++ okCalls mf,
                  applied := s.applied ++ [mf.version] },
         some (.applyFailed mf.version (.migrationFailed (.taskFailed i (.store msg))))) := by
  cases hfe : finalErrs env mf with
  | nil => exact absurd hfe hfail
  | cons e es =>
    obtain ⟨i, msg, he⟩ := finalErrs_mem_shape env mf e (hfe ▸ List.mem_cons_self e es)
    refine ⟨i, msg, ?_⟩
    simp only [runLoop]
    rw [if_pos hpend, applyMigration_supported env mf hmf, hfe]
    simp only [List.head?_cons, Option.map_some']
    rw [he]

theorem runLoop_skip_v1 (env : Env) (ctx dryRun : Bool) (last : Int) :
    ∀ (migs : List Migration) (s : RState),
      (∀ mg ∈ migs, mg.version ≤ last) →
      runLoop env ctx dryRun last migs s = (s, none) := by
  intro migs
  induction migs with
  | nil => intro s _; rfl
  | cons m ms ih =>
    intro s h
    simp only [runLoop]
    rw [if_neg (not_lt.mpr (h m (List.mem_cons_self m ms)))]
    exact ih s (fun mg hmg => h mg (List.mem_cons_of_mem m hmg))

end V1

namespace V2

theorem runLoop_skip_v2 (env : Env) (ctx dryRun : Bool) (last : Int) :
    ∀ (migs : List Migration) (s : RState),
      (∀ mg ∈ migs, mg.version ≤ last) →
      runLoop env ctx dryRun last migs s = (s, none) := by
  intro migs
  induction migs with
  | nil => intro s _; rfl
  | cons m ms ih =>
    intro s h
    simp only [runLoop]
    rw [if_pos (h m (List.mem_cons_self m ms))]
    exact ih s (fun mg hmg => h mg (List.mem_cons_of_mem m hmg))

end V2

/-- Claim C1: over a loaded migration list that is strictly sorted by
version, with every task call and cursor write succeeding and every method
supported, the first-variant engine applies exactly the migrations whose
version exceeds the starting cursor, in strictly increasing version order;
the call trace interleaves each applied migration with the write of its
version to the cursor before the next migration starts; and the final
cursor is the highest applied version (the starting value when nothing is
pending). -/
theorem C1_monotonic_application (env : Env) (dir : List FileEntry) (t0 : Option Int)
    (migs : List Migration)
    (hload : loadMigrations dir = .ok migs)
    (hsort : migs.Pairwise (fun a b => a.version < b.version))
    (htask : ∀ v i a, env.taskOk v i a = true)
    (htrack : ∀ v, env.trackOk v = true)
    (hm : ∀ mg ∈ migs, ∀ t ∈ mg.tasks, V1.supportedMethod t.method = true) :
    (V1.RunMigrations env false false dir t0).2 = none ∧
    (V1.RunMigrations env false false dir t0).1.applied =
      (migs.filter (fun mg => decide (t0.getD 0 < mg.version))).map (·.version) ∧
    ((V1.RunMigrations env false false dir t0).1.applied).Pairwise (· < ·) ∧
    (V1.RunMigrations env false false dir t0).1.calls =
      .read trackingPath ::
        (migs.filter (fun mg => decide (t0.getD 0 < mg.version))).flatMap
          (fun mg => V1.okCalls mg ++ [.write trackingPath (trackData mg.version)]) ∧
    (V1.RunMigrations env false false dir t0).1.tracking =
      finalTrack ((migs.filter (fun mg => decide (t0.getD 0 < mg.version))).map (·.version))
        t0 ∧
    (∀ w ∈ (V1.RunMigrations env false false dir t0).1.applied, ∀ v,
       ((V1.RunMigrations env false false dir t0).1.applied).getLast? = some v → w ≤ v) := by
  have hpair : ((migs.filter (fun mg => decide (t0.getD 0 < mg.version))).map
      (·.version)).Pairwise (· < ·) :=
    List.pairwise_map.mpr (hsort.sublist (List.filter_sublist migs))
  have hrun : V1.RunMigrations env false false dir t0 =
      ({ tracking := finalTrack
           ((migs.filter (fun mg => decide (t0.getD 0 < mg.version))).map (·.version)) t0,
         calls := [StoreCall.read trackingPath] ++
           (migs.filter (fun mg => decide (t0.getD 0 < mg.version))).flatMap
             (fun mg => V1.okCalls mg ++ [.write trackingPath (trackData mg.version)]),
         applied := [] ++
           (migs.filter (fun mg => decide (t0.getD 0 < mg.version))).map (·.version) },
       none) := by
    simp only [V1.RunMigrations]
    rw [hload]
    exact V1.runLoop_allok env htask htrack (t0.getD 0) migs
      { tracking := t0, calls := [.read trackingPath], applied := [] } hm
  rw [hrun]
  refine ⟨rfl, by simp, by simpa using hpair, by simp, rfl, ?_⟩
  simp only [List.nil_append]
  exact pairwise_lt_le_getLast _ hpair

/-- Witness instantiating C1_monotonic_application: cursor starts unset,
two pending migrations of versions one and two are applied in order, the
task calls of version one run before the cursor write of version one,
which precedes everything of version two, and the cursor ends at two. -/
theorem C1_monotonic_application_witness :
    (V1.RunMigrations envAll false false
        [.parsed "001"
           { version := 1,
             tasks := [{ path := "secret/a", method := "write", data := [] }] },
         .parsed "002" { version := 2, tasks := [] }] none).2 = none ∧
    (V1.RunMigrations envAll false false
        [.parsed "001"
           { version := 1,
             tasks := [{ path := "secret/a", method := "write", data := [] }] },
         .parsed "002" { version := 2, tasks := [] }] none).1.applied = [1, 2] ∧
    ((V1.RunMigrations envAll false false
        [.parsed "001"
           { version := 1,
             tasks := [{ path := "secret/a", method := "write", data := [] }] },
         .parsed "002" { version := 2, tasks := [] }] none).1.applied).Pairwise (· < ·) ∧
    (V1.RunMigrations envAll false false
        [.parsed "001"
           { version := 1,
             tasks := [{ path := "secret/a", method := "write", data := [] }] },
         .parsed "002" { version := 2, tasks := [] }] none).1.calls =
      [.read trackingPath, .write "secret/a" [], .write "secret/a" [],
       .write "secret/a" [], .write trackingPath (trackData 1),
       .write trackingPath (trackData 2)] ∧
    (V1.RunMigrations envAll false false
        [.parsed "001"
           { version := 1,
             tasks := [{ path := "secret/a", method := "write", data := [] }] },
         .parsed "002" { version := 2, tasks := [] }] none).1.tracking = some 2 ∧
    (∀ w ∈ (V1.RunMigrations envAll false false
        [.parsed "001"
           { version := 1,
             tasks := [{ path := "secret/a", method := "write", data := [] }] },
         .parsed "002" { version := 2, tasks := [] }] none).1.applied, ∀ v,
       ((V1.RunMigrations envAll false false
        [.parsed "001"
           { version := 1,
             tasks := [{ path := "secret/a", method := "write", data := [] }] },
         .parsed "002" { version := 2, tasks := [] }] none).1.applied).getLast? = some v →
       w ≤ v) :=
  C1_monotonic_application envAll
    [.parsed "001"
       { version := 1,
         tasks := [{ path := "secret/a", method := "write", data := [] }] },
     .parsed "002" { version := 2, tasks := [] }] none
    [{ version := 1,
       tasks := [{ path := "secret/a", method := "write", data := [] }] },
     { version := 2, tasks := [] }]
    rfl (by decide) (fun _ _ _ => rfl) (fun _ => rfl) (by decide)

/-- Claim C3: when the tasks of every earlier pending migration succeed
and some task of a pending migration mf has a failing final attempt, the
first-variant engine returns the store error wrapped in the task,
migration and apply error chain, the cursor is never set to the failing
version (it ends at the last successfully applied version, or the
starting value when mf is the first pending migration), the call trace
ends with the tasks of mf and holds no cursor write for mf, and no
migration after mf is applied. -/
theorem C3_stop_on_error (env : Env) (dir : List FileEntry) (t0 : Option Int)
    (pre post : List Migration) (mf : Migration)
    (hload : loadMigrations dir = .ok (pre ++ mf :: post))
    (hsort : (pre ++ mf :: post).Pairwise (fun a b => a.version < b.version))
    (htrack : ∀ v, env.trackOk v = true)
    (htaskp : ∀ mg ∈ pre, ∀ i a, env.taskOk mg.version i a = true)
    (hmp : ∀ mg ∈ pre, ∀ t ∈ mg.tasks, V1.supportedMethod t.method = true)
    (hmf : ∀ t ∈ mf.tasks, V1.supportedMethod t.method = true)
    (hpend : t0.getD 0 < mf.version)
    (hfail : V1.finalErrs env mf ≠ []) :
    ∃ i msg,
      (V1.RunMigrations env false false dir t0).2 =
        some (.applyFailed mf.version (.migrationFailed (.taskFailed i (.store msg)))) ∧
      (V1.RunMigrations env false false dir t0).1.tracking =
        finalTrack ((pre.filter (fun mg => decide (t0.getD 0 < mg.version))).map (·.version))
          t0 ∧
      (V1.RunMigrations env false false dir t0).1.tracking ≠ some mf.version ∧
      (V1.RunMigrations env false false dir t0).1.applied =
        (pre.filter (fun mg => decide (t0.getD 0 < mg.version))).map (·.version)
          ++ [mf.version] ∧
      (V1.RunMigrations env false false dir t0).1.calls =
        .read trackingPath ::
          ((pre.filter (fun mg => decide (t0.getD 0 < mg.version))).flatMap
              (fun mg => V1.okCalls mg ++ [.write trackingPath (trackData mg.version)])
            ++ V1.okCalls mf) ∧
      ∀ mg ∈ post, mg.version ∉ (V1.RunMigrations env false false dir t0).1.applied := by
  have hsplit := List.pairwise_append.mp hsort
  have hpre_lt : ∀ mg ∈ pre, mg.version < mf.version := by
    intro mg hmg
    exact hsplit.2.2 mg hmg mf (List.mem_cons_self mf post)
  have hpost_gt : ∀ mg ∈ post, mf.version < mg.version := by
    intro mg hmg
    exact (List.pairwise_cons.mp hsplit.2.1).1 mg hmg
  obtain ⟨i, msg, hloop⟩ := V1.runLoop_fail_head env (t0.getD 0) mf post
    { tracking := finalTrack
        ((pre.filter (fun mg => decide (t0.getD 0 < mg.version))).map (·.version)) t0,
      calls := [StoreCall.read trackingPath] ++
        (pre.filter (fun mg => decide (t0.getD 0 < mg.version))).flatMap
          (fun mg => V1.okCalls mg ++ [.write trackingPath (trackData mg.version)]),
      applied := [] ++
        (pre.filter (fun mg => decide (t0.getD 0 < mg.version))).map (·.version) }
    hmf hpend hfail
  have hrun : V1.RunMigrations env false false dir t0 =
      ({ tracking := finalTrack
           ((pre.filter (fun mg => decide (t0.getD 0 < mg.version))).map (·.version)) t0,
         calls := ([StoreCall.read trackingPath] ++
           (pre.filter (fun mg => decide (t0.getD 0 < mg.version))).flatMap
             (fun mg => V1.okCalls mg ++ [.write trackingPath (trackData mg.version)]))
           ++ V1.okCalls mf,
         applied := ([] ++
           (pre.filter (fun mg => decide (t0.getD 0 < mg.version))).map (·.version))
           ++ [mf.version] },
       some (.applyFailed mf.version (.migrationFailed (.taskFailed i (.store msg))))) := by
    simp only [V1.RunMigrations]
    rw [hload]
    exact (V1.runLoop_pre env htrack (t0.getD 0) pre (mf :: post)
      { tracking := t0, calls := [.read trackingPath], applied := [] } htaskp hmp).trans
      hloop
  have htrne : finalTrack
      ((pre.filter (fun mg => decide (t0.getD 0 < mg.version))).map (·.version)) t0
      ≠ some mf.version := by
    unfold finalTrack
    cases hlast : ((pre.filter (fun mg => decide (t0.getD 0 < mg.version))).map
        (·.version)).getLast? with
    | some v =>
      intro hcontra
      have hv : v = mf.version := Option.some.inj hcontra
      have hvmem := List.mem_of_mem_getLast? hlast
      obtain ⟨mg, hmg, hmgv⟩ := List.mem_map.mp hvmem
      have hlt : mg.version < mf.version := hpre_lt mg (List.mem_of_mem_filter hmg)
      rw [hmgv, hv] at hlt
      exact lt_irrefl _ hlt
    | none =>
      cases t0 with
      | none => intro hcontra; cases hcontra
      | some x =>
        intro hcontra
        have hx : x = mf.version := Option.some.inj hcontra
        have hlt : x < mf.version := hpend
        rw [hx] at hlt
        exact lt_irrefl _ hlt
  refine ⟨i, msg, ?_, ?_, ?_, ?_, ?_, ?_⟩
  · rw [hrun]
  · rw [hrun]
  · rw [hrun]; exact htrne
  · rw [hrun]; simp
  · rw [hrun]; simp
  · intro mg hmg
    rw [hrun]
    simp only [List.nil_append]
    intro hmem
    rcases List.mem_append.mp hmem with h | h
    · obtain ⟨m2, hm2, hm2v⟩ := List.mem_map.mp h
      have h1 : m2.version < mf.version := hpre_lt m2 (List.mem_of_mem_filter hm2)
      have h2 : mf.version < mg.version := hpost_gt mg hmg
      rw [hm2v] at h1
      exact lt_irrefl _ (lt_trans h1 h2)
    · have h1 : mg.version = mf.version := List.mem_singleton.mp h
      have h2 : mf.version < mg.version := hpost_gt mg hmg
      rw [h1] at h2
      exact lt_irrefl _ h2

/-- Witness instantiating C3_stop_on_error: the first pending migration
fails (every attempt of its task fails under the oracle), the run returns
the wrapped store error, the cursor keeps its pre-run unset value, and the
later migration is not applied. -/
theorem C3_stop_on_error_witness :
    ∃ i msg,
      (V1.RunMigrations envFailHigh false false
          [.parsed "002"
             { version := 2,
               tasks := [{ path := "b", method := "write", data := [] }] },
           .parsed "003" { version := 3, tasks := [] }] none).2 =
        some (.applyFailed 2 (.migrationFailed (.taskFailed i (.store msg)))) ∧
      (V1.RunMigrations envFailHigh false false
          [.parsed "002"
             { version := 2,
               tasks := [{ path := "b", method := "write", data := [] }] },
           .parsed "003" { version := 3, tasks := [] }] none).1.tracking = none ∧
      (V1.RunMigrations envFailHigh false false
          [.parsed "002"
             { version := 2,
               tasks := [{ path := "b", method := "write", data := [] }] },
           .parsed "003" { version := 3, tasks := [] }] none).1.tracking ≠ some 2 ∧
      (V1.RunMigrations envFailHigh false false
          [.parsed "002"
             { version := 2,
               tasks := [{ path := "b", method := "write", data := [] }] },
           .parsed "003" { version := 3, tasks := [] }] none).1.applied = [2] ∧
      (V1.RunMigrations envFailHigh false false
          [.parsed "002"
             { version := 2,
               tasks := [{ path := "b", method := "write", data := [] }] },
           .parsed "003" { version := 3, tasks := [] }] none).1.calls =
        [.read trackingPath, .write "b" [], .write "b" [], .write "b" []] ∧
      ∀ mg ∈ [({ version := 3, tasks := [] } : Migration)],
        mg.version ∉ (V1.RunMigrations envFailHigh false false
          [.parsed "002"
             { version := 2,
               tasks := [{ path := "b", method := "write", data := [] }] },
           .parsed "003" { version := 3, tasks := [] }] none).1.applied :=
  C3_stop_on_error envFailHigh
    [.parsed "002"
       { version := 2,
         tasks := [{ path := "b", method := "write", data := [] }] },
     .parsed "003" { version := 3, tasks := [] }] none
    [] [{ version := 3, tasks := [] }]
    { version := 2, tasks := [{ path := "b", method := "write", data := [] }] }
    rfl (by decide) (fun _ => rfl)
    (by intro mg hmg; simp at hmg) (by intro mg hmg; simp at hmg)
    (by decide) (by decide) (by decide)

/-- Claim C6: when every loaded migration version is at or below the
starting cursor, both engine variants finish without error, perform no
mutating store call (the only client call is the cursor read), apply
nothing and leave the cursor untouched. -/
theorem C6_rerun_no_mutation (env : Env) (ctx dryRun : Bool) (dir : List FileEntry)
    (t0 : Option Int) (migs : List Migration)
    (hload : loadMigrations dir = .ok migs)
    (hall : ∀ mg ∈ migs, mg.version ≤ t0.getD 0) :
    V1.RunMigrations env ctx dryRun dir t0 =
      ({ tracking := t0, calls := [.read trackingPath], applied := [] }, none) ∧
    V2.RunMigrations env ctx dryRun dir t0 =
      ({ tracking := t0, calls := [.read trackingPath], applied := [] }, none) := by
  constructor
  · simp only [V1.RunMigrations]
    rw [hload]
    exact V1.runLoop_skip_v1 env ctx dryRun (t0.getD 0) migs _ hall
  · simp only [V2.RunMigrations]
    rw [hload]
    exact V2.runLoop_skip_v2 env ctx dryRun (t0.getD 0) migs _ hall

/-- Witness instantiating C6_rerun_no_mutation: with the cursor at five
and a single version-one migration, both variants issue only the cursor
read. -/
theorem C6_rerun_no_mutation_witness :
    V1.RunMigrations envAll false false
        [.parsed "001"
           { version := 1,
             tasks := [{ path := "a", method := "write", data := [] }] }] (some 5) =
      ({ tracking := some 5, calls := [.read trackingPath], applied := [] }, none) ∧
    V2.RunMigrations envAll false false
        [.parsed "001"
           { version := 1,
             tasks := [{ path := "a", method := "write", data := [] }] }] (some 5) =
      ({ tracking := some 5, calls := [.read trackingPath], applied := [] }, none) :=
  C6_rerun_no_mutation envAll false false
    [.parsed "001"
       { version := 1,
         tasks := [{ path := "a", method := "write", data := [] }] }] (some 5)
    [{ version := 1, tasks := [{ path := "a", method := "write", data := [] }] }]
    rfl (by decide)

/-- Claim C2: evaluation of the embedded retry loop.  With a context that
is not cancelled and a task whose every attempt succeeds, the loop still
invokes the store call three times — the break after a successful attempt
exits only the select statement, not the for loop, so success does not
stop further attempts, contrary to the claim.  The other claim parts
hold: no more than three invocations ever happen, a failing task sleeps
one second before the first retry and two before the second and surfaces
the final error, and an already-cancelled context aborts with the
cancellation error before any attempt. -/
theorem C2_retry_loop_behaviour :
    (V1.taskRun envAll false 1 0
      { path := "p", method := "write", data := [] }).attempts = 3 ∧
    (V1.taskRun envAll false 1 0
      { path := "p", method := "write", data := [] }).calls
      = [.write "p" [], .write "p" [], .write "p" []] ∧
    (V1.taskRun envAll false 1 0
      { path := "p", method := "write", data := [] }).err = none ∧
    (V1.taskRun envFailAll false 1 0
      { path := "p", method := "write", data := [] }).sleeps = [1, 2] ∧
    (V1.taskRun envFailAll false 1 0
      { path := "p", method := "write", data := [] }).attempts = 3 ∧
    (V1.taskRun envFailAll false 1 0
      { path := "p", method := "write", data := [] }).err
      = some (.taskFailed 0 (.store "boom")) ∧
    (V1.taskRun envAll true 1 0
      { path := "p", method := "write", data := [] }).attempts = 0 ∧
    (V1.taskRun envAll true 1 0
      { path := "p", method := "write", data := [] }).calls = [] ∧
    (V1.taskRun envAll true 1 0
      { path := "p", method := "write", data := [] }).err = some .cancelled :=
  ⟨rfl, rfl, rfl, rfl, rfl, rfl, rfl, rfl, rfl⟩

/-- Claim C4: evaluation of the first-variant engine in dry-run mode on
one pending migration starting from an unset cursor.  No task call
reaches the store, but the engine still writes version one to the
tracking path and the cursor changes from unset to one: the cursor write
is unconditional in this variant (the second variant guards it with the
dry-run flag), so the claim that the cursor is unchanged fails on this
code. -/
theorem C4_dry_run_writes_cursor :
    V1.RunMigrations envAll false true
        [.parsed "001"
           { version := 1,
             tasks := [{ path := "secret/a", method := "write", data := [] }] }] none
      = ({ tracking := some 1,
           calls := [.read trackingPath, .write trackingPath (trackData 1)],
           applied := [1] }, none) := rfl

/-- Claim C10: decoding the stored tracking value panics through the
unchecked type assertion when the version field holds a present
non-string value, returns an error rather than a panic exactly for string
values that do not parse as an integer, and returns zero without error
when the secret or the field is absent. -/
theorem C10_tracking_value_decoding (data : Tree) :
    (getLastAppliedVersion none = .val 0) ∧
    (lookupTree data "version" = none → getLastAppliedVersion (some data) = .val 0) ∧
    (∀ v, lookupTree data "version" = some v → v.isNil = false →
       (∀ str, v ≠ .vstr str) → getLastAppliedVersion (some data) = .crash) ∧
    (∀ str, lookupTree data "version" = some (.vstr str) → goAtoi str = none →
       getLastAppliedVersion (some data) = .fails "invalid version format") ∧
    (∀ str n, lookupTree data "version" = some (.vstr str) → goAtoi str = some n →
       getLastAppliedVersion (some data) = .val n) := by
  refine ⟨rfl, ?_, ?_, ?_, ?_⟩
  · intro h
    simp only [getLastAppliedVersion]
    rw [h]
  · intro v hv hnil hnstr
    simp only [getLastAppliedVersion]
    rw [hv]
    cases v with
    | vstr str => exact absurd rfl (hnstr str)
    | vint n => rfl
    | vbool b => rfl
    | vnil => simp at hnil
    | vmap kvs => rfl
    | vlist xs => rfl
  · intro str hv hparse
    simp only [getLastAppliedVersion]
    rw [hv]
    simp [hparse]
  · intro str n hv hparse
    simp only [getLastAppliedVersion]
    rw [hv]
    simp [hparse]

/-- Witness instantiating C10_tracking_value_decoding: an integer stored
under the version field panics, the string twelve decodes to twelve, and
a non-numeric string yields the invalid-format error. -/
theorem C10_tracking_value_decoding_witness :
    getLastAppliedVersion (some [("version", .vint 3)]) = .crash ∧
    getLastAppliedVersion (some [("version", .vstr "12")]) = .val 12 ∧
    getLastAppliedVersion (some [("version", .vstr "abc")])
      = .fails "invalid version format" :=
  ⟨(C10_tracking_value_decoding [("version", .vint 3)]).2.2.1 (.vint 3) rfl rfl
      (fun _ h => GoVal.noConfusion h),
   (C10_tracking_value_decoding [("version", .vstr "12")]).2.2.2.2 "12" 12 rfl rfl,
   (C10_tracking_value_decoding [("version", .vstr "abc")]).2.2.2.1 "abc" rfl rfl⟩

end VaultMigrations

